import Mathlib

/-!
Shallow embedding of the Gujarati news finder application
(`streamlit_app.py`): the cache store, the file index, the Google Drive
sync step, the PDF processing loop and the result display, together with
proofs of the specification claims about them.
-/

/-- Python `dict` lookup (`m[k]` together with the `k in m` test) for a
string-keyed mapping modelled as an insertion-ordered association list. -/
def dictGet (m : List (String × String)) (k : String) : Option String :=
  (m.find? (fun e => e.1 == k)).map (fun e => e.2)

/-- Python `dict` assignment `m[k] = v`: updates the value in place when the
key is present, otherwise appends the new binding at the end. -/
def dictInsert (m : List (String × String)) (k v : String) : List (String × String) :=
  if m.any (fun e => e.1 == k) then
    m.map (fun e => if e.1 == k then (k, v) else e)
  else
    m ++ [(k, v)]

/-- Split a character list at every slash. -/
def splitSlash : List Char → List (List Char)
  | [] => [[]]
  | c :: rest =>
    if c = '/' then [] :: splitSlash rest
    else
      match splitSlash rest with
      | [] => [[c]]
      | p :: ps => (c :: p) :: ps

/-- Python `Path(p).name`: the last nonempty component of a slash-separated
path (`Path` drops trailing and repeated slashes before taking the final
component; the special components `.` and `..` do not occur in the paths the
application builds and are not modelled). -/
def pathName (p : String) : String :=
  String.mk (((splitSlash p.data).filter (fun c => !c.isEmpty)).getLastD [])

/-- The cache key `f"{Path(pdf_path).name}_{tag}"` computed by
`process_pdf`. -/
def cacheKey (pdf_path tag : String) : String :=
  pathName pdf_path ++ "_" ++ tag

/-- Lower-case hexadecimal digit for a value below 16. -/
def hexDig (n : Nat) : Char :=
  if n < 10 then Char.ofNat (48 + n) else Char.ofNat (87 + n)

/-- The escaping `json.dump` applies to one character when
`ensure_ascii=False`: backslash, double quote and the control characters
below `0x20` are escaped (with short forms for the usual ones); every other
character is emitted as itself. -/
def escapeChar (c : Char) : List Char :=
  if c == '\\' then ['\\', '\\']
  else if c == '"' then ['\\', '"']
  else if c == '\n' then ['\\', 'n']
  else if c == '\r' then ['\\', 'r']
  else if c == '\t' then ['\\', 't']
  else if c == '\x08' then ['\\', 'b']
  else if c == '\x0c' then ['\\', 'f']
  else if c.toNat < 0x20 then
    ['\\', 'u', '0', '0', hexDig (c.toNat / 16), hexDig (c.toNat % 16)]
  else [c]

/-- Escape every character of a string body. -/
def escapeList (s : List Char) : List Char :=
  s.flatMap escapeChar

/-- JSON rendering of one string literal: quote, escaped body, quote. -/
def dumpStr (s : String) : List Char :=
  '"' :: (escapeList s.data ++ ['"'])

/-- JSON rendering of the entries of a mapping as `json.dump` lays them out
with `indent=2`: two spaces before each entry, colon and space between key
and value, a comma and a newline between consecutive entries. -/
def dumpEntries : List (String × String) → List Char
  | [] => []
  | [(k, v)] => ' ' :: ' ' :: (dumpStr k ++ ':' :: ' ' :: dumpStr v)
  | (k, v) :: e :: rest =>
    ' ' :: ' ' :: (dumpStr k ++ ':' :: ' ' :: dumpStr v)
      ++ ',' :: '\n' :: dumpEntries (e :: rest)

/-- The serialized form `json.dump(m, f, ensure_ascii=False, indent=2)`
writes for a flat string-to-string mapping: the two braces for the empty
mapping, otherwise one entry per line indented by two spaces. -/
def dumpJson (m : List (String × String)) : String :=
  match m with
  | [] => String.mk ['\x7b', '\x7d']
  | _ => String.mk ('\x7b' :: '\n' :: (dumpEntries m ++ ['\n', '\x7d']))

/-- Value of a hexadecimal digit character, `none` for any other
character. -/
def hexVal (c : Char) : Option Nat :=
  if '0' ≤ c ∧ c ≤ '9' then some (c.toNat - 48)
  else if 'a' ≤ c ∧ c ≤ 'f' then some (c.toNat - 87)
  else if 'A' ≤ c ∧ c ≤ 'F' then some (c.toNat - 55)
  else none

/-- Decoder for the body of a JSON string literal (after the opening
quote): consumes characters up to the closing quote, decoding the JSON
escapes and rejecting raw control characters, as the strict-mode scanner of
`json.load` does.  Returns the decoded body and the input remaining after
the closing quote. -/
def parseStrBody : List Char → Option (List Char × List Char)
  | [] => none
  | c :: rest =>
    if c = '"' then some ([], rest)
    else if c = '\\' then
      match rest with
      | [] => none
      | e :: rest2 =>
        if e = '"' then (parseStrBody rest2).map (fun x => ('"' :: x.1, x.2))
        else if e = '\\' then (parseStrBody rest2).map (fun x => ('\\' :: x.1, x.2))
        else if e = '/' then (parseStrBody rest2).map (fun x => ('/' :: x.1, x.2))
        else if e = 'n' then (parseStrBody rest2).map (fun x => ('\n' :: x.1, x.2))
        else if e = 'r' then (parseStrBody rest2).map (fun x => ('\r' :: x.1, x.2))
        else if e = 't' then (parseStrBody rest2).map (fun x => ('\t' :: x.1, x.2))
        else if e = 'b' then (parseStrBody rest2).map (fun x => ('\x08' :: x.1, x.2))
        else if e = 'f' then (parseStrBody rest2).map (fun x => ('\x0c' :: x.1, x.2))
        else if e = 'u' then
          match rest2 with
          | h1 :: h2 :: h3 :: h4 :: rest3 =>
            match hexVal h1, hexVal h2, hexVal h3, hexVal h4 with
            | some a, some b, some c2, some d =>
              let n := ((a * 16 + b) * 16 + c2) * 16 + d
              if n < 0xd800 then
                (parseStrBody rest3).map (fun x => (Char.ofNat n :: x.1, x.2))
              else none
            | _, _, _, _ => none
          | _ => none
        else none
    else if c.toNat < 0x20 then none
    else (parseStrBody rest).map (fun x => (c :: x.1, x.2))

/-- JSON whitespace accepted between tokens. -/
def isJsonWs (c : Char) : Bool :=
  c == ' ' || c == '\t' || c == '\n' || c == '\r'

/-- Skip JSON whitespace. -/
def skipWs (l : List Char) : List Char :=
  l.dropWhile isJsonWs

/-- Decoder for a nonempty sequence of `"key": "value"` members up to and
including the closing brace of the object.  The fuel argument bounds the
number of members and is instantiated with the length of the document,
which always suffices. -/
def parseEntries : Nat → List Char → Option (List (String × String) × List Char)
  | 0, _ => none
  | fuel + 1, l =>
    match l with
    | '"' :: r1 =>
      match parseStrBody r1 with
      | none => none
      | some (k, r2) =>
        match skipWs r2 with
        | ':' :: r3 =>
          match skipWs r3 with
          | '"' :: r4 =>
            match parseStrBody r4 with
            | none => none
            | some (v, r5) =>
              match skipWs r5 with
              | ',' :: r6 =>
                match parseEntries fuel (skipWs r6) with
                | some (m, r7) => some ((String.mk k, String.mk v) :: m, r7)
                | none => none
              | '\x7d' :: r6 => some ([(String.mk k, String.mk v)], r6)
              | _ => none
          | _ => none
        | _ => none
    | _ => none

/-- Model of `json.load` restricted to the documents the application ever
stores: a flat JSON object whose keys and values are strings, with nothing
but whitespace after it.  `none` models the `json.JSONDecodeError` that
`json.load` raises on malformed input. -/
def parseJson (s : String) : Option (List (String × String)) :=
  match skipWs s.data with
  | '\x7b' :: r =>
    match skipWs r with
    | '\x7d' :: r2 => if skipWs r2 = [] then some [] else none
    | l2 =>
      match parseEntries s.data.length l2 with
      | some (m, r2) => if skipWs r2 = [] then some m else none
      | none => none
  | _ => none

/-- The body of `load_cache`: parse the cache file when it exists, return
the empty mapping when it does not.  A malformed file makes `json.load`
raise, and nothing catches that exception. -/
def load_cache (file : Option String) : Except String (List (String × String)) :=
  match file with
  | none => .ok []
  | some s =>
    match parseJson s with
    | some m => .ok m
    | none => .error "json.decoder.JSONDecodeError"

/-- The body of `save_cache`: serialize the in-memory cache dictionary with
`json.dump(..., ensure_ascii=False, indent=2)` into the cache file. -/
def save_cache (m : List (String × String)) : String :=
  dumpJson m

/-- The body of `load_files_index`: parse the files index when it exists,
return the empty mapping when it does not; a malformed file raises. -/
def load_files_index (file : Option String) : Except String (List (String × String)) :=
  match file with
  | none => .ok []
  | some s =>
    match parseJson s with
    | some m => .ok m
    | none => .error "json.decoder.JSONDecodeError"

/-- The body of `save_files_index`: serialize `drive_files` into the files
index file. -/
def save_files_index (m : List (String × String)) : String :=
  dumpJson m

/-- State touched by `sync_drive_files`: the `st.session_state.drive_files`
mapping from remote title to local path, the set of local file paths that
exist in the download directory, and the contents of the on-disk files
index. -/
structure SyncState where
  drive_files : List (String × String)
  localFiles : List String
  files_index : Option String
deriving DecidableEq, Repr

/-- Result of one `sync_drive_files` call: the state after the call, the
number of remote Drive operations performed, and the list of local paths
that were downloaded with `GetContentFile`. -/
structure SyncResult where
  state : SyncState
  remoteOps : Nat
  downloaded : List String
deriving DecidableEq, Repr

/-- The download loop of `sync_drive_files`: for each listed remote title in
order, download the file only when no file exists at its local target path,
then record the title-to-path binding in `drive_files`.  Returns the final
mapping, the final set of local files, and the list of downloaded paths. -/
def syncLoop (tempDir : String) :
    List String → List (String × String) → List String →
    List (String × String) × List String × List String
  | [], files, locals => (files, locals, [])
  | title :: rest, files, locals =>
    let path := tempDir ++ "/" ++ title
    let step :=
      if path ∈ locals then (locals, ([] : List String))
      else (locals ++ [path], [path])
    let next := syncLoop tempDir rest (dictInsert files title path) step.1
    (next.1, next.2.1, step.2 ++ next.2.2)

/-- The body of `sync_drive_files`: return immediately when `drive_files`
is already populated; otherwise authenticate, look up the application
folder, list its PDF files (three remote operations plus one per download),
download every listed file whose local path does not yet exist, record each
binding, and save the files index. -/
def sync_drive_files (remote : List String) (tempDir : String) (s : SyncState) :
    SyncResult :=
  if s.drive_files ≠ [] then ⟨s, 0, []⟩
  else
    let r := syncLoop tempDir remote s.drive_files s.localFiles
    ⟨⟨r.1, r.2.1, some (dumpJson r.1)⟩, 3 + r.2.2.length, r.2.2⟩

/-- Python `results.split('---')` on the character list: splits at the
leftmost non-overlapping occurrences of the three-dash separator. -/
def splitOn3 : List Char → List (List Char)
  | '-' :: '-' :: '-' :: rest => [] :: splitOn3 rest
  | c :: rest =>
    match splitOn3 rest with
    | [] => [[c]]
    | p :: ps => (c :: p) :: ps
  | [] => [[]]

/-- Number of leftmost non-overlapping occurrences of the three-dash
separator in a character list. -/
def countSep3 : List Char → Nat
  | '-' :: '-' :: '-' :: rest => countSep3 rest + 1
  | _ :: rest => countSep3 rest
  | [] => 0

/-- Characters stripped by Python `str.strip()` (restricted to the ASCII
whitespace the application ever meets). -/
def isPySpace (c : Char) : Bool :=
  c == ' ' || c == '\t' || c == '\n' || c == '\r' || c == '\x0b' || c == '\x0c'

/-- Python `str.strip()`: drop leading and trailing whitespace. -/
def pyStrip (s : List Char) : List Char :=
  ((s.dropWhile isPySpace).reverse.dropWhile isPySpace).reverse

/-- The display loop of `main`: split the result blob on the literal
three-dash separator, enumerate the sections from 1, and render one display
section (carrying its index and stripped text) for every section that is
nonempty after stripping. -/
def renderedItems (results : String) : List (Nat × String) :=
  ((splitOn3 results.data).enumFrom 1).filterMap
    (fun e => if pyStrip e.2 = [] then none else some (e.1, String.mk (pyStrip e.2)))

/-- Environment of external calls made by `process_pdf`: `fitz.open`, the
page renderer `convert_pdf_page_to_image` and the vision call
`process_image_with_gpt4_vision`.  Each can raise, modelled by `Except`;
the inference call can also return a falsy result (`None` or the empty
string), modelled by `Option String` with `some ""` for the empty string. -/
structure Env (Page Image : Type) where
  openDoc : String → Except String (List Page)
  render : Page → Except String Image
  infer : Image → String → Except String (Option String)

/-- Python truthiness filter used by `if result: all_results.append(result)`:
`None` and the empty string are dropped, any other result is kept. -/
def keepTruthy : Option String → Option String
  | none => none
  | some s => if s == "" then none else some s

/-- The mutable state touched by `process_pdf`: the in-memory
`st.session_state.processed_cache` dictionary and the contents of the
on-disk `processed_cache.json` file (`none` when the file does not
exist). -/
structure PdfState where
  processed_cache : List (String × String)
  cache_file : Option String
deriving DecidableEq, Repr

/-- Result of one `process_pdf` call: the returned value (`none` models the
`return None` of the exception handler), the state after the call, and how
many times the page renderer and the vision-inference call were invoked. -/
structure RunResult where
  ret : Option String
  state : PdfState
  renders : Nat
  infers : Nat
deriving DecidableEq, Repr

variable {Page Image : Type}

/-- The page loop of `process_pdf`: renders each page in order, runs
inference on it, and appends the truthy results.  Returns `none` in the
first component when some call raised, together with the number of renderer
and inference invocations actually performed before the exception. -/
def pageLoop (env : Env Page Image) (tag : String) :
    List Page → Option (List String) × Nat × Nat
  | [] => (some [], 0, 0)
  | p :: rest =>
    match env.render p with
    | .error _ => (none, 1, 0)
    | .ok img =>
      match env.infer img tag with
      | .error _ => (none, 1, 1)
      | .ok r =>
        match pageLoop env tag rest with
        | (res, nr, ni) =>
          (res.map (fun rs =>
            match keepTruthy r with
            | some s => s :: rs
            | none => rs),
           nr + 1, ni + 1)

/-- The body of `process_pdf`: check the cache (returning the cached value
on a hit), otherwise open the document, loop over its pages, join the
truthy per-page results with newlines, store the joined result in the cache
dictionary under the key built from the file base name and the tag, write
the cache file, and return the joined result.  A raised exception is caught
and turned into a `none` return with the state untouched. -/
def process_pdf (env : Env Page Image) (s : PdfState) (pdf_path tag : String) :
    RunResult :=
  let key := cacheKey pdf_path tag
  match dictGet s.processed_cache key with
  | some v => ⟨some v, s, 0, 0⟩
  | none =>
    match env.openDoc pdf_path with
    | .error _ => ⟨none, s, 0, 0⟩
    | .ok pages =>
      match pageLoop env tag pages with
      | (none, nr, ni) => ⟨none, s, nr, ni⟩
      | (some rs, nr, ni) =>
        let final := String.intercalate "\n" rs
        let cache := dictInsert s.processed_cache key final
        ⟨some final, ⟨cache, some (dumpJson cache)⟩, nr, ni⟩

/-- Environment in which none of the external calls raises: the document
contents, the renderer and the inference behaviour are given by total
functions. -/
def totalEnv (docs : String → List Page) (rend : Page → Image)
    (inf : Image → String → Option String) : Env Page Image :=
  ⟨fun p => .ok (docs p), fun pg => .ok (rend pg), fun i t => .ok (inf i t)⟩

theorem dictGet_replace (k v : String) :
    ∀ m : List (String × String), m.any (fun e => e.1 == k) = true →
      dictGet (m.map (fun e => if e.1 == k then (k, v) else e)) k = some v := by
  intro m
  induction m with
  | nil => intro h; simp at h
  | cons e m ih =>
    intro h
    by_cases he : (e.1 == k) = true
    · have heq : e.1 = k := by simpa using he
      have hx : ((e :: m).map (fun e => if e.1 == k then (k, v) else e)) =
          (k, v) :: m.map (fun e => if e.1 == k then (k, v) else e) := by
        simp [heq]
      rw [hx]
      unfold dictGet
      rw [List.find?_cons_of_pos _ (by simp)]
      rfl
    · have heq : ¬e.1 = k := by simpa using he
      have hm : m.any (fun e => e.1 == k) = true := by
        simpa [he] using h
      have hx : ((e :: m).map (fun e => if e.1 == k then (k, v) else e)) =
          e :: m.map (fun e => if e.1 == k then (k, v) else e) := by
        simp [heq]
      rw [hx]
      unfold dictGet
      rw [List.find?_cons_of_neg _ (by simpa using he)]
      exact ih hm

theorem dictGet_append_new (k v : String) :
    ∀ m : List (String × String), m.any (fun e => e.1 == k) = false →
      dictGet (m ++ [(k, v)]) k = some v := by
  intro m
  induction m with
  | nil => intro _; simp [dictGet]
  | cons e m ih =>
    intro h
    simp only [List.any_cons, Bool.or_eq_false_iff] at h
    have hcons : dictGet ((e :: m) ++ [(k, v)]) k = dictGet (m ++ [(k, v)]) k := by
      unfold dictGet
      rw [List.cons_append, List.find?_cons_of_neg _ (by simp [h.1])]
    rw [hcons]
    exact ih h.2

theorem dictGet_dictInsert_self (m : List (String × String)) (k v : String) :
    dictGet (dictInsert m k v) k = some v := by
  unfold dictInsert
  by_cases h : m.any (fun e => e.1 == k) = true
  · simp only [h, if_true]
    exact dictGet_replace k v m h
  · simp only [h, if_false]
    rw [Bool.not_eq_true] at h
    exact dictGet_append_new k v m h

theorem pageLoop_totalEnv (docs : String → List Page) (rend : Page → Image)
    (inf : Image → String → Option String) (tag : String) :
    ∀ pages : List Page,
      pageLoop (totalEnv docs rend inf) tag pages =
        (some ((pages.map (fun p => inf (rend p) tag)).filterMap keepTruthy),
         pages.length, pages.length) := by
  intro pages
  induction pages with
  | nil => rfl
  | cons p rest ih =>
    have hr : (totalEnv docs rend inf).render p = .ok (rend p) := rfl
    have hi : (totalEnv docs rend inf).infer (rend p) tag = .ok (inf (rend p) tag) := rfl
    simp only [pageLoop, hr, hi, ih, List.map_cons, List.filterMap_cons, List.length_cons]
    cases h : keepTruthy (inf (rend p) tag) <;> simp [h]

/-- C1: for every PDF file and tag whose cache key is not present in the
cache, `process_pdf` returns the newline-joined concatenation of the
non-empty per-page inference results, taken in page order over all pages,
and writes exactly that concatenation into the cache (in memory and on
disk) under the key formed from the file base name and the tag. -/
theorem process_pdf_cache_miss (docs : String → List Page) (rend : Page → Image)
    (inf : Image → String → Option String) (s : PdfState) (pdf_path tag : String)
    (hmiss : dictGet s.processed_cache (cacheKey pdf_path tag) = none) :
    process_pdf (totalEnv docs rend inf) s pdf_path tag =
      ⟨some (String.intercalate "\n"
          (((docs pdf_path).map (fun p => inf (rend p) tag)).filterMap keepTruthy)),
       ⟨dictInsert s.processed_cache (cacheKey pdf_path tag)
           (String.intercalate "\n"
             (((docs pdf_path).map (fun p => inf (rend p) tag)).filterMap keepTruthy)),
        some (dumpJson (dictInsert s.processed_cache (cacheKey pdf_path tag)
           (String.intercalate "\n"
             (((docs pdf_path).map (fun p => inf (rend p) tag)).filterMap keepTruthy))))⟩,
       (docs pdf_path).length, (docs pdf_path).length⟩ := by
  have ho : (totalEnv docs rend inf).openDoc pdf_path = .ok (docs pdf_path) := rfl
  simp only [process_pdf, hmiss, ho, pageLoop_totalEnv]

/-- Witness for `process_pdf_cache_miss` at a concrete document and
environment. -/
theorem process_pdf_cache_miss_witness :
    dictGet (⟨[], none⟩ : PdfState).processed_cache (cacheKey "a.pdf" "tag") = none ∧
    process_pdf (totalEnv (fun _ => [0, 1]) (fun p : Nat => p)
        (fun i _ => if i = 0 then some "hit" else none)) ⟨[], none⟩ "a.pdf" "tag" =
      ⟨some (String.intercalate "\n"
          ((([0, 1]).map (fun p =>
            (fun i _ => if i = 0 then some "hit" else none) ((fun p : Nat => p) p) "tag")).filterMap
              keepTruthy)),
       ⟨dictInsert [] (cacheKey "a.pdf" "tag")
           (String.intercalate "\n"
             ((([0, 1]).map (fun p =>
               (fun i _ => if i = 0 then some "hit" else none) ((fun p : Nat => p) p) "tag")).filterMap
                 keepTruthy)),
        some (dumpJson (dictInsert [] (cacheKey "a.pdf" "tag")
           (String.intercalate "\n"
             ((([0, 1]).map (fun p =>
               (fun i _ => if i = 0 then some "hit" else none) ((fun p : Nat => p) p) "tag")).filterMap
                 keepTruthy))))⟩,
       ([0, 1] : List Nat).length, ([0, 1] : List Nat).length⟩ :=
  ⟨by decide,
   process_pdf_cache_miss (fun _ => [0, 1]) (fun p : Nat => p)
     (fun i _ => if i = 0 then some "hit" else none) ⟨[], none⟩ "a.pdf" "tag" (by decide)⟩

/-- C2: if a first `process_pdf` call for a file and tag completes
successfully, a second call with the same file and tag returns the cached
value immediately, invokes neither the page renderer nor the
vision-inference call, and leaves the cache (memory and disk) unchanged. -/
theorem process_pdf_idempotent (env : Env Page Image) (s : PdfState)
    (pdf_path tag v : String)
    (h : (process_pdf env s pdf_path tag).ret = some v) :
    process_pdf env (process_pdf env s pdf_path tag).state pdf_path tag =
      ⟨some v, (process_pdf env s pdf_path tag).state, 0, 0⟩ := by
  have hkey : dictGet (process_pdf env s pdf_path tag).state.processed_cache
      (cacheKey pdf_path tag) = some v := by
    simp only [process_pdf] at h ⊢
    cases hc : dictGet s.processed_cache (cacheKey pdf_path tag) with
    | some w =>
      simp only [hc] at h ⊢
      simpa using h
    | none =>
      simp only [hc] at h ⊢
      cases ho : env.openDoc pdf_path with
      | error e => simp [ho] at h
      | ok pages =>
        simp only [ho] at h ⊢
        cases hl : pageLoop env tag pages with
        | mk res counts =>
          cases res with
          | none => simp [hl] at h
          | some rs =>
            simp only [hl] at h ⊢
            have hv : String.intercalate "\n" rs = v := by simpa using h
            simpa [hv] using dictGet_dictInsert_self s.processed_cache
              (cacheKey pdf_path tag) v
  conv_lhs => rw [process_pdf]
  rw [hkey]

/-- Witness for `process_pdf_idempotent`: a successful empty-document run
followed by a second call that hits the cache. -/
theorem process_pdf_idempotent_witness :
    (process_pdf (totalEnv (fun _ => ([] : List Unit)) (fun _ => ())
        (fun _ _ => (none : Option String))) ⟨[], none⟩ "a.pdf" "t").ret = some "" ∧
    process_pdf (totalEnv (fun _ => ([] : List Unit)) (fun _ => ())
        (fun _ _ => (none : Option String)))
        ((process_pdf (totalEnv (fun _ => ([] : List Unit)) (fun _ => ())
          (fun _ _ => (none : Option String))) ⟨[], none⟩ "a.pdf" "t").state) "a.pdf" "t" =
      ⟨some "",
       (process_pdf (totalEnv (fun _ => ([] : List Unit)) (fun _ => ())
         (fun _ _ => (none : Option String))) ⟨[], none⟩ "a.pdf" "t").state, 0, 0⟩ :=
  ⟨by decide,
   process_pdf_idempotent (totalEnv (fun _ => ([] : List Unit)) (fun _ => ())
     (fun _ _ => (none : Option String))) ⟨[], none⟩ "a.pdf" "t" "" (by decide)⟩

/-- C3: if a step of `process_pdf` raises before the cache-write step is
reached (the document fails to open, or some page render or inference call
raises), the exception is caught, `process_pdf` returns a null result, and
the cache mapping in memory and on disk is exactly what it was before. -/
theorem process_pdf_exception_no_write (env : Env Page Image) (s : PdfState)
    (pdf_path tag : String)
    (hmiss : dictGet s.processed_cache (cacheKey pdf_path tag) = none)
    (hraise : (∃ e, env.openDoc pdf_path = .error e) ∨
      (∃ pages, env.openDoc pdf_path = .ok pages ∧ (pageLoop env tag pages).1 = none)) :
    (process_pdf env s pdf_path tag).ret = none ∧
      (process_pdf env s pdf_path tag).state = s := by
  simp only [process_pdf, hmiss]
  rcases hraise with ⟨e, he⟩ | ⟨pages, hp, hl⟩
  · simp [he]
  · simp only [hp]
    cases hpl : pageLoop env tag pages with
    | mk res counts =>
      rw [hpl] at hl
      cases res with
      | none => simp
      | some rs => simp at hl

/-- Witness for `process_pdf_exception_no_write`: an environment whose
document open raises. -/
theorem process_pdf_exception_no_write_witness :
    dictGet (⟨[("k", "v")], none⟩ : PdfState).processed_cache (cacheKey "a.pdf" "t") = none ∧
    (process_pdf (Env.mk (fun _ => .error "cannot open") (fun _ => .ok ())
        (fun _ _ => .ok none) : Env Unit Unit) ⟨[("k", "v")], none⟩ "a.pdf" "t").ret = none ∧
    (process_pdf (Env.mk (fun _ => .error "cannot open") (fun _ => .ok ())
        (fun _ _ => .ok none) : Env Unit Unit) ⟨[("k", "v")], none⟩ "a.pdf" "t").state =
      ⟨[("k", "v")], none⟩ :=
  ⟨by decide,
   process_pdf_exception_no_write
     (Env.mk (fun _ => .error "cannot open") (fun _ => .ok ()) (fun _ _ => .ok none))
     ⟨[("k", "v")], none⟩ "a.pdf" "t" (by decide) (.inl ⟨"cannot open", rfl⟩)⟩

/-- C4: for a file and tag not yet cached, when every per-page inference
result is empty or null (or the document has no pages), `process_pdf`
completes, caches the empty string under the key, and returns the empty
string, and a later call for the same key is a cache hit returning the
empty string. -/
theorem process_pdf_all_empty (docs : String → List Page) (rend : Page → Image)
    (inf : Image → String → Option String) (s : PdfState) (pdf_path tag : String)
    (hmiss : dictGet s.processed_cache (cacheKey pdf_path tag) = none)
    (hempty : ∀ p ∈ docs pdf_path, keepTruthy (inf (rend p) tag) = none) :
    (process_pdf (totalEnv docs rend inf) s pdf_path tag).ret = some "" ∧
    (process_pdf (totalEnv docs rend inf) s pdf_path tag).state.processed_cache =
      dictInsert s.processed_cache (cacheKey pdf_path tag) "" ∧
    process_pdf (totalEnv docs rend inf)
        (process_pdf (totalEnv docs rend inf) s pdf_path tag).state pdf_path tag =
      ⟨some "", (process_pdf (totalEnv docs rend inf) s pdf_path tag).state, 0, 0⟩ := by
  have ho : (totalEnv docs rend inf).openDoc pdf_path = .ok (docs pdf_path) := rfl
  have hfm : ((docs pdf_path).map (fun p => inf (rend p) tag)).filterMap keepTruthy = [] := by
    rw [List.filterMap_eq_nil_iff]
    intro a ha
    obtain ⟨p, hp, rfl⟩ := List.mem_map.mp ha
    exact hempty p hp
  have hrun : process_pdf (totalEnv docs rend inf) s pdf_path tag =
      ⟨some "", ⟨dictInsert s.processed_cache (cacheKey pdf_path tag) "",
        some (dumpJson (dictInsert s.processed_cache (cacheKey pdf_path tag) ""))⟩,
       (docs pdf_path).length, (docs pdf_path).length⟩ := by
    simp only [process_pdf, hmiss, ho, pageLoop_totalEnv, hfm]
    rfl
  refine ⟨by rw [hrun], by rw [hrun], ?_⟩
  rw [hrun]
  have hhit : dictGet (dictInsert s.processed_cache (cacheKey pdf_path tag) "")
      (cacheKey pdf_path tag) = some "" :=
    dictGet_dictInsert_self s.processed_cache (cacheKey pdf_path tag) ""
  conv_lhs => rw [process_pdf]
  rw [hhit]

/-- Witness for `process_pdf_all_empty`: a two-page document whose pages
yield a null and an empty inference result. -/
theorem process_pdf_all_empty_witness :
    dictGet (⟨[], none⟩ : PdfState).processed_cache (cacheKey "b.pdf" "t") = none ∧
    (∀ p ∈ (fun _ : String => [0, 1]) "b.pdf",
      keepTruthy ((fun i (_ : String) => if i = 0 then none else some "") ((fun p : Nat => p) p) "t") = none) ∧
    ((process_pdf (totalEnv (fun _ => [0, 1]) (fun p : Nat => p)
        (fun i _ => if i = 0 then none else some "")) ⟨[], none⟩ "b.pdf" "t").ret = some "" ∧
     (process_pdf (totalEnv (fun _ => [0, 1]) (fun p : Nat => p)
        (fun i _ => if i = 0 then none else some "")) ⟨[], none⟩ "b.pdf" "t").state.processed_cache =
       dictInsert [] (cacheKey "b.pdf" "t") "" ∧
     process_pdf (totalEnv (fun _ => [0, 1]) (fun p : Nat => p)
         (fun i _ => if i = 0 then none else some ""))
         ((process_pdf (totalEnv (fun _ => [0, 1]) (fun p : Nat => p)
           (fun i _ => if i = 0 then none else some "")) ⟨[], none⟩ "b.pdf" "t").state) "b.pdf" "t" =
       ⟨some "", (process_pdf (totalEnv (fun _ => [0, 1]) (fun p : Nat => p)
         (fun i _ => if i = 0 then none else some "")) ⟨[], none⟩ "b.pdf" "t").state, 0, 0⟩) :=
  ⟨by decide, by decide,
   process_pdf_all_empty (fun _ => [0, 1]) (fun p : Nat => p)
     (fun i _ => if i = 0 then none else some "") ⟨[], none⟩ "b.pdf" "t"
     (by decide) (by decide)⟩

/-- C5: the cache key depends only on the file base name and the tag, never
on file content: once a result is cached for one document, `process_pdf`
returns that cached result for any document with the same base name and
tag, in any environment, without invoking the renderer or inference. -/
theorem process_pdf_key_ignores_content (env2 : Env Page Image) (s : PdfState)
    (p1 p2 tag v : String) (hname : pathName p1 = pathName p2)
    (hcached : dictGet s.processed_cache (cacheKey p1 tag) = some v) :
    cacheKey p2 tag = cacheKey p1 tag ∧
    process_pdf env2 s p2 tag = ⟨some v, s, 0, 0⟩ := by
  have hk : cacheKey p2 tag = cacheKey p1 tag := by
    unfold cacheKey
    rw [hname]
  refine ⟨hk, ?_⟩
  conv_lhs => rw [process_pdf]
  rw [hk, hcached]

/-- Witness for `process_pdf_key_ignores_content`: two paths with the same
base name, an environment with different content, and a pre-cached key. -/
theorem process_pdf_key_ignores_content_witness :
    pathName "/old/a.pdf" = pathName "/new/a.pdf" ∧
    dictGet [(cacheKey "/old/a.pdf" "t", "stale")] (cacheKey "/old/a.pdf" "t") = some "stale" ∧
    (cacheKey "/new/a.pdf" "t" = cacheKey "/old/a.pdf" "t" ∧
     process_pdf (totalEnv (fun _ => [7]) (fun p : Nat => p) (fun _ _ => some "fresh"))
         ⟨[(cacheKey "/old/a.pdf" "t", "stale")], none⟩ "/new/a.pdf" "t" =
       ⟨some "stale", ⟨[(cacheKey "/old/a.pdf" "t", "stale")], none⟩, 0, 0⟩) :=
  ⟨by decide, by decide,
   process_pdf_key_ignores_content
     (totalEnv (fun _ => [7]) (fun p : Nat => p) (fun _ _ => some "fresh"))
     ⟨[(cacheKey "/old/a.pdf" "t", "stale")], none⟩ "/old/a.pdf" "/new/a.pdf" "t" "stale"
     (by decide) (by decide)⟩

/-- C8: the cache key concatenates base name, one underscore and the tag;
the construction is not injective: the distinct queries (file `a_b`, tag
`c`) and (file `a`, tag `b_c`) share the key `a_b_c`, so a result cached
for the first is returned verbatim for the second without any inference. -/
theorem cacheKey_collision :
    (("a_b", "c") : String × String) ≠ ("a", "b_c") ∧
    cacheKey "a_b" "c" = cacheKey "a" "b_c" ∧
    process_pdf
        (Env.mk (fun _ => .ok ([()] : List Unit)) (fun _ => .ok ())
          (fun _ _ => .ok (some "other result")) : Env Unit Unit)
        ⟨[(cacheKey "a_b" "c", "cached for a_b with tag c")], none⟩ "a" "b_c" =
      ⟨some "cached for a_b with tag c",
       ⟨[(cacheKey "a_b" "c", "cached for a_b with tag c")], none⟩, 0, 0⟩ := by
  refine ⟨by decide, by decide, ?_⟩
  decide

theorem syncLoop_downloads_new (tempDir : String) :
    ∀ (titles : List String) (files : List (String × String)) (locals : List String),
      ∀ p ∈ (syncLoop tempDir titles files locals).2.2, p ∉ locals := by
  intro titles
  induction titles with
  | nil => intro files locals p hp; simp [syncLoop] at hp
  | cons title rest ih =>
    intro files locals p hp
    simp only [syncLoop] at hp
    by_cases hmem : tempDir ++ "/" ++ title ∈ locals
    · simp only [if_pos hmem, List.nil_append] at hp
      exact ih _ _ p hp
    · simp only [if_neg hmem, List.cons_append, List.nil_append, List.mem_cons] at hp
      rcases hp with rfl | hp
      · exact hmem
      · have := ih (dictInsert files title (tempDir ++ "/" ++ title))
          (locals ++ [tempDir ++ "/" ++ title]) p hp
        intro hc
        exact this (List.mem_append_left _ hc)

theorem syncLoop_files_grow (tempDir : String) :
    ∀ (titles : List String) (files : List (String × String)) (locals : List String),
      files.length ≤ (syncLoop tempDir titles files locals).1.length := by
  intro titles
  induction titles with
  | nil => intro files locals; simp [syncLoop]
  | cons title rest ih =>
    intro files locals
    have hins : files.length ≤ (dictInsert files title (tempDir ++ "/" ++ title)).length := by
      unfold dictInsert
      split
      · simp
      · simp
    calc files.length ≤ (dictInsert files title (tempDir ++ "/" ++ title)).length := hins
      _ ≤ _ := by
        simp only [syncLoop]
        split <;> exact ih _ _

theorem syncLoop_cons_ne_nil (tempDir t : String) (rest : List String)
    (files : List (String × String)) (locals : List String) :
    (syncLoop tempDir (t :: rest) files locals).1 ≠ [] := by
  have key : ∀ locals2 : List String,
      (syncLoop tempDir rest (dictInsert files t (tempDir ++ "/" ++ t)) locals2).1 ≠ [] := by
    intro locals2
    have hg := syncLoop_files_grow tempDir rest
      (dictInsert files t (tempDir ++ "/" ++ t)) locals2
    have hlen : 1 ≤ (dictInsert files t (tempDir ++ "/" ++ t)).length := by
      unfold dictInsert
      split
      · rename_i hany
        cases files with
        | nil => simp at hany
        | cons a l => simp
      · simp
    intro hnil
    rw [hnil] at hg
    simp only [List.length_nil] at hg
    omega
  simp only [syncLoop]
  exact key _

/-- C6: `sync_drive_files` downloads a remote file only when no local file
exists at its target path; it returns immediately with no remote operation
when the file-index mapping is already non-empty; and running sync twice
without remote changes leaves the set of local files unchanged. -/
theorem sync_drive_files_props (remote : List String) (tempDir : String) (s : SyncState) :
    (s.drive_files ≠ [] → sync_drive_files remote tempDir s = ⟨s, 0, []⟩) ∧
    (∀ p ∈ (sync_drive_files remote tempDir s).downloaded, p ∉ s.localFiles) ∧
    (sync_drive_files remote tempDir
        (sync_drive_files remote tempDir s).state).state.localFiles =
      (sync_drive_files remote tempDir s).state.localFiles := by
  refine ⟨?_, ?_, ?_⟩
  · intro h
    simp [sync_drive_files, h]
  · intro p hp
    by_cases h : s.drive_files = []
    · simp only [sync_drive_files, h, ne_eq, not_true_eq_false, if_false] at hp
      exact syncLoop_downloads_new tempDir remote [] s.localFiles p hp
    · simp [sync_drive_files, h] at hp
  · by_cases h : s.drive_files = []
    · cases remote with
      | nil => simp [sync_drive_files, h, syncLoop]
      | cons t rest =>
        have hne := syncLoop_cons_ne_nil tempDir t rest s.drive_files s.localFiles
        rw [h] at hne
        simp [sync_drive_files, h, hne]
    · simp [sync_drive_files, h]

/-- Witness for `sync_drive_files_props`: a populated index makes sync a
no-op. -/
theorem sync_drive_files_props_witness :
    sync_drive_files ["b.pdf"] "/tmp/d" ⟨[("a.pdf", "/tmp/d/a.pdf")], ["/tmp/d/a.pdf"], none⟩ =
      ⟨⟨[("a.pdf", "/tmp/d/a.pdf")], ["/tmp/d/a.pdf"], none⟩, 0, []⟩ :=
  (sync_drive_files_props ["b.pdf"] "/tmp/d"
    ⟨[("a.pdf", "/tmp/d/a.pdf")], ["/tmp/d/a.pdf"], none⟩).1 (by decide)

theorem strMk_data (s : String) : String.mk s.data = s := by
  cases s
  rfl

theorem hexVal_hexDig : ∀ n : Nat, n < 16 → hexVal (hexDig n) = some n := by
  decide

theorem parseStrBody_escape (s : List Char) :
    ∀ rest : List Char, parseStrBody (escapeList s ++ '"' :: rest) = some (s, rest) := by
  induction s with
  | nil =>
    intro rest
    rw [show escapeList [] ++ '"' :: rest = '"' :: rest by simp [escapeList]]
    rw [parseStrBody.eq_def]
    simp
  | cons c s ih =>
    intro rest
    have hesc : escapeList (c :: s) ++ '"' :: rest =
        escapeChar c ++ (escapeList s ++ '"' :: rest) := by
      simp [escapeList]
    rw [hesc]
    by_cases h1 : c = '\\'
    · subst h1
      rw [show escapeChar '\\' = ['\\', '\\'] from rfl]
      rw [parseStrBody.eq_def]
      simp [ih]
    by_cases h2 : c = '"'
    · subst h2
      rw [show escapeChar '"' = ['\\', '"'] from rfl]
      rw [parseStrBody.eq_def]
      simp [ih]
    by_cases h3 : c = '\n'
    · subst h3
      rw [show escapeChar '\n' = ['\\', 'n'] from rfl]
      rw [parseStrBody.eq_def]
      simp [ih]
    by_cases h4 : c = '\r'
    · subst h4
      rw [show escapeChar '\r' = ['\\', 'r'] from rfl]
      rw [parseStrBody.eq_def]
      simp [ih]
    by_cases h5 : c = '\t'
    · subst h5
      rw [show escapeChar '\t' = ['\\', 't'] from rfl]
      rw [parseStrBody.eq_def]
      simp [ih]
    by_cases h6 : c = '\x08'
    · subst h6
      rw [show escapeChar '\x08' = ['\\', 'b'] from rfl]
      rw [parseStrBody.eq_def]
      simp [ih]
    by_cases h7 : c = '\x0c'
    · subst h7
      rw [show escapeChar '\x0c' = ['\\', 'f'] from rfl]
      rw [parseStrBody.eq_def]
      simp [ih]
    by_cases hctl : c.toNat < 0x20
    · have hform : escapeChar c =
          ['\\', 'u', '0', '0', hexDig (c.toNat / 16), hexDig (c.toNat % 16)] := by
        simp [escapeChar, h1, h2, h3, h4, h5, h6, h7, hctl]
      rw [hform]
      have h0 : hexVal '0' = some 0 := by decide
      have hq : hexVal (hexDig (c.toNat / 16)) = some (c.toNat / 16) :=
        hexVal_hexDig _ (by omega)
      have hr : hexVal (hexDig (c.toNat % 16)) = some (c.toNat % 16) :=
        hexVal_hexDig _ (by omega)
      have hn : c.toNat / 16 * 16 + c.toNat % 16 = c.toNat := by omega
      have hlt : c.toNat < 55296 := by omega
      rw [parseStrBody.eq_def]
      simp only [List.cons_append]
      simp +decide [h0, hq, hr, hn, hlt, Char.ofNat_toNat, ih]
    · have hform : escapeChar c = [c] := by
        simp [escapeChar, h1, h2, h3, h4, h5, h6, h7, hctl]
      rw [hform]
      rw [show ([c] : List Char) ++ (escapeList s ++ '"' :: rest) =
        c :: (escapeList s ++ '"' :: rest) from rfl]
      rw [parseStrBody.eq_def]
      simp [h1, h2, hctl, ih]

theorem skipWs_cons_ws (c : Char) (l : List Char) (h : isJsonWs c = true) :
    skipWs (c :: l) = skipWs l := by
  simp [skipWs, List.dropWhile_cons, h]

theorem skipWs_cons_not (c : Char) (l : List Char) (h : isJsonWs c = false) :
    skipWs (c :: l) = c :: l := by
  simp [skipWs, List.dropWhile_cons, h]


theorem parseEntries_dump :
    ∀ (m : List (String × String)) (fuel : Nat), m ≠ [] → m.length ≤ fuel →
      parseEntries fuel (skipWs (dumpEntries m ++ ['\n', '\x7d'])) = some (m, []) := by
  intro m
  induction m with
  | nil => intro fuel h _; exact absurd rfl h
  | cons e m ih =>
    intro fuel _ hfuel
    obtain ⟨k, v⟩ := e
    obtain ⟨f, rfl⟩ : ∃ f, fuel = f + 1 := ⟨fuel - 1, by simp at hfuel; omega⟩
    cases m with
    | nil =>
      simp only [dumpEntries, dumpStr, List.cons_append, List.append_assoc]
      rw [skipWs_cons_ws _ _ (by decide), skipWs_cons_ws _ _ (by decide),
        skipWs_cons_not _ _ (by decide)]
      rw [parseEntries]
      simp only [List.nil_append]
      rw [parseStrBody_escape]
      simp +decide [parseStrBody_escape, skipWs_cons_ws, skipWs_cons_not, strMk_data, isJsonWs]
    | cons e2 m2 =>
      have hih := ih f (by simp) (by simp at hfuel ⊢; omega)
      simp only [dumpEntries, dumpStr, List.cons_append, List.append_assoc]
      rw [skipWs_cons_ws _ _ (by decide), skipWs_cons_ws _ _ (by decide),
        skipWs_cons_not _ _ (by decide)]
      rw [parseEntries]
      simp only [List.nil_append]
      rw [parseStrBody_escape]
      simp +decide [parseStrBody_escape, skipWs_cons_ws, skipWs_cons_not, strMk_data,
        isJsonWs, hih]

theorem length_dumpEntries : ∀ m : List (String × String), m.length ≤ (dumpEntries m).length := by
  intro m
  induction m with
  | nil => simp [dumpEntries]
  | cons e m ih =>
    obtain ⟨k, v⟩ := e
    cases m with
    | nil => simp [dumpEntries]
    | cons e2 m2 =>
      simp only [dumpEntries, List.length_cons, List.length_append] at ih ⊢
      omega

theorem parseJson_dumpJson (m : List (String × String)) :
    parseJson (dumpJson m) = some m := by
  cases m with
  | nil => rfl
  | cons e m2 =>
    have hd : (dumpJson (e :: m2)).data =
        '\x7b' :: '\n' :: (dumpEntries (e :: m2) ++ ['\n', '\x7d']) := rfl
    obtain ⟨t, ht⟩ : ∃ t, skipWs (dumpEntries (e :: m2) ++ ['\n', '\x7d']) = '"' :: t := by
      obtain ⟨k, v⟩ := e
      cases m2 with
      | nil =>
        simp only [dumpEntries, dumpStr, List.cons_append, List.append_assoc]
        rw [skipWs_cons_ws _ _ (by decide), skipWs_cons_ws _ _ (by decide),
          skipWs_cons_not _ _ (by decide)]
        exact ⟨_, rfl⟩
      | cons e3 m3 =>
        simp only [dumpEntries, dumpStr, List.cons_append, List.append_assoc]
        rw [skipWs_cons_ws _ _ (by decide), skipWs_cons_ws _ _ (by decide),
          skipWs_cons_not _ _ (by decide)]
        exact ⟨_, rfl⟩
    have hlen : (e :: m2).length ≤ (dumpJson (e :: m2)).data.length := by
      have h1 := length_dumpEntries (e :: m2)
      rw [hd]
      simp only [List.length_cons, List.length_append]
      simp at h1 ⊢
      omega
    have hpe := parseEntries_dump (e :: m2) (dumpJson (e :: m2)).data.length
      (by simp) hlen
    rw [ht] at hpe
    unfold parseJson
    rw [hd]
    rw [skipWs_cons_not _ _ (by decide)]
    simp only []
    rw [skipWs_cons_ws _ _ (by decide)]
    rw [ht]
    rw [show (dumpJson (e :: m2)).data.length =
      ('\x7b' :: '\n' :: (dumpEntries (e :: m2) ++ ['\n', '\x7d'])).length from by rw [hd]] at hpe
    simp +decide [skipWs] at hpe ⊢
    rw [hpe]
    simp

/-- C7: saving a cache mapping with `save_cache` and loading it back with
`load_cache` yields the same mapping (round trip through the JSON
serialization). -/
theorem cache_round_trip (m : List (String × String)) :
    load_cache (some (save_cache m)) = .ok m := by
  simp only [load_cache, save_cache, parseJson_dumpJson]

theorem splitOn3_cons_step (c : Char) (rest : List Char)
    (h : ∀ r, c = '-' → rest = '-' :: '-' :: r → False) :
    splitOn3 (c :: rest) =
      (match splitOn3 rest with
       | [] => [[c]]
       | p :: ps => (c :: p) :: ps) := by
  rw [splitOn3.eq_def]
  split
  · rename_i x r heq
    injection heq with h1 h2
    exact absurd h2 (fun hh => h r h1 hh)
  · rename_i x1 c2 rest2 hno hx
    injection hx with h1 h2
    subst h1
    subst h2
    rfl
  · rename_i x heq
    exact List.noConfusion heq

theorem countSep3_cons_step (c : Char) (rest : List Char)
    (h : ∀ r, c = '-' → rest = '-' :: '-' :: r → False) :
    countSep3 (c :: rest) = countSep3 rest := by
  rw [countSep3.eq_def]
  split
  · rename_i x r heq
    injection heq with h1 h2
    exact absurd h2 (fun hh => h r h1 hh)
  · rename_i x1 c2 rest2 hno hx
    injection hx with h1 h2
    subst h2
    rfl
  · rename_i x heq
    exact List.noConfusion heq

theorem length_splitOn3 : ∀ l : List Char, (splitOn3 l).length = countSep3 l + 1 := by
  intro l
  induction l using splitOn3.induct with
  | case1 rest ih =>
    rw [show splitOn3 ('-' :: '-' :: '-' :: rest) = [] :: splitOn3 rest from rfl,
      show countSep3 ('-' :: '-' :: '-' :: rest) = countSep3 rest + 1 from rfl]
    simp [ih]
  | case2 c rest hno hnil ih =>
    rw [hnil] at ih
    simp at ih
  | case3 c rest hno p ps heq ih =>
    rw [splitOn3_cons_step c rest hno, countSep3_cons_step c rest hno, heq]
    rw [heq] at ih
    simpa using ih
  | case4 => rfl

/-- C9: `load_cache` and `load_files_index` return the empty mapping when
the on-disk file does not exist, but propagate the `json.load` decode error
unhandled when the file exists and holds malformed JSON. -/
theorem load_cache_missing_and_malformed :
    load_cache none = .ok [] ∧ load_files_index none = .ok [] ∧
    (∀ s, parseJson s = none →
      load_cache (some s) = .error "json.decoder.JSONDecodeError") ∧
    (∀ s, parseJson s = none →
      load_files_index (some s) = .error "json.decoder.JSONDecodeError") ∧
    load_cache (some (String.mk ['\x7b'])) = .error "json.decoder.JSONDecodeError" ∧
    load_files_index (some (String.mk ['\x7b'])) = .error "json.decoder.JSONDecodeError" := by
  have hbad : parseJson (String.mk ['\x7b']) = none := by decide
  refine ⟨rfl, rfl, ?_, ?_, ?_, ?_⟩
  · intro s hs
    simp [load_cache, hs]
  · intro s hs
    simp [load_files_index, hs]
  · simp [load_cache, hbad]
  · simp [load_files_index, hbad]

/-- Witness for `load_cache_missing_and_malformed`: a concrete malformed
file contents. -/
theorem load_cache_missing_and_malformed_witness :
    parseJson "junk" = none ∧
    load_cache (some "junk") = .error "json.decoder.JSONDecodeError" :=
  ⟨by decide, load_cache_missing_and_malformed.2.2.1 "junk" (by decide)⟩

/-- C10 counterexample: the blob `---` is non-empty and contains exactly
one separator token, yet the display loop renders zero sections — neither
N = 1 nor N + 1 = 2 — because sections that are blank after stripping are
skipped. -/
theorem display_split_cex :
    ("---" : String) ≠ "" ∧
    countSep3 ("---" : String).data = 1 ∧
    (renderedItems "---").length = 0 ∧
    (renderedItems "---").length ≠ 1 ∧
    (renderedItems "---").length ≠ 2 := by
  refine ⟨by decide, by decide, by decide, by decide, by decide⟩

/-- C10 amended: splitting a non-empty blob with N separator occurrences
yields N + 1 sections, and the display loop renders one section per
split part that is nonempty after stripping — so at most N + 1 rendered
sections, but possibly fewer (down to zero). -/
theorem display_split_amended (s : String) (_h : s ≠ "") :
    (splitOn3 s.data).length = countSep3 s.data + 1 ∧
    (renderedItems s).length ≤ countSep3 s.data + 1 := by
  refine ⟨length_splitOn3 s.data, ?_⟩
  have h1 : (renderedItems s).length ≤ ((splitOn3 s.data).enumFrom 1).length :=
    List.length_filterMap_le _ _
  rw [List.enumFrom_length, length_splitOn3 s.data] at h1
  exact h1

/-- Witness for `display_split_amended` at a concrete blob. -/
theorem display_split_amended_witness :
    ("a--- b ---" : String) ≠ "" ∧
    ((splitOn3 ("a--- b ---" : String).data).length =
        countSep3 ("a--- b ---" : String).data + 1 ∧
     (renderedItems "a--- b ---").length ≤ countSep3 ("a--- b ---" : String).data + 1) :=
  ⟨by decide, display_split_amended "a--- b ---" (by decide)⟩
